import Mathlib

/-!
Shallow embedding of the realtime (Socket.IO) layer of the ResearchBridge
backend: the `setupSocketHandlers` function (authentication middleware,
room joins, broadcast handlers, presence, disconnect), together with the
transport semantics it relies on (rooms are sets of socket ids, `socket.to`
excludes the sender, `io.emit` reaches every connected socket, disconnect
removes the socket from every room).

Persistence (`prisma`) is modelled as a read-only database of conversation
participants, documents and project members; a lookup that throws is
modelled by a per-event `dbFail` flag, since the handlers wrap their whole
body in `try/catch` and a caught error yields the same observable outcome
regardless of which lookup threw.
-/

namespace ResearchBridge

abbrev SocketId := Nat

/-- The decoded JWT payload attached to `socket.data.user`. -/
structure UserData where
  id : String
  email : String
deriving DecidableEq, Repr

/-- Outcome of `jwt.verify` on the handshake token: the token can be absent,
fail verification (bad signature or expired, both throw), or decode to a
user payload. -/
inductive TokenCheck where
  | missing
  | invalid
  | valid (id : String) (email : String)
deriving DecidableEq, Repr

/-- Tokens the middleware rejects: missing, or `jwt.verify` threw. -/
def TokenCheck.bad : TokenCheck → Bool
  | .missing => true
  | .invalid => true
  | .valid _ _ => false

/-- A `document` row, with the project it belongs to. -/
structure Document where
  id : String
  projectId : String
deriving DecidableEq, Repr

/-- The persistence collaborator: the three tables the socket handlers query. -/
structure DB where
  conversationParticipants : List (String × String)
  documents : List Document
  projectMembers : List (String × String)
deriving Repr

/-- Lookup backing `prisma.conversationParticipant.findFirst` keyed by
conversation id and user id; it returns a record or null, and the handler
only needs whether one exists. -/
def DB.findParticipant (db : DB) (conversationId userId : String) : Bool :=
  db.conversationParticipants.any (fun p => p.1 == conversationId && p.2 == userId)

/-- Lookup backing `prisma.document.findUnique` keyed by document id. -/
def DB.findDocument (db : DB) (documentId : String) : Option Document :=
  db.documents.find? (fun d => d.id == documentId)

/-- Lookup backing `prisma.projectMember.findFirst` keyed by project id
and user id. -/
def DB.findProjectMember (db : DB) (projectId userId : String) : Bool :=
  db.projectMembers.any (fun p => p.1 == projectId && p.2 == userId)

/-- Room keys. The source builds string keys `user:<id>`, `conversation:<id>`,
`document:<id>`; the three prefixes are distinct and the id suffix is
recovered uniquely, so the string encoding is faithfully represented by this
tagged type. -/
inductive RoomKey where
  | user (userId : String)
  | conversation (conversationId : String)
  | document (documentId : String)
deriving DecidableEq, Repr

/-- A live connection: its socket id and the authenticated user attached by
the middleware. -/
structure Conn where
  sid : SocketId
  user : UserData
deriving DecidableEq, Repr

/-- Server state: the connected sockets and the room membership relation
(the adapter's room → set-of-socket-ids map, flattened to pairs; `join` on
an already present pair is a no-op, mirroring `Set.add`). -/
structure ServerState where
  conns : List Conn
  rooms : List (RoomKey × SocketId)
deriving DecidableEq, Repr

def ServerState.init : ServerState := ⟨[], []⟩

def ServerState.connOf (st : ServerState) (sid : SocketId) : Option Conn :=
  st.conns.find? (fun c => c.sid == sid)

def ServerState.connected (st : ServerState) (sid : SocketId) : Bool :=
  (st.connOf sid).isSome

def ServerState.isMember (st : ServerState) (r : RoomKey) (sid : SocketId) : Bool :=
  st.rooms.contains (r, sid)

/-- How many times a socket occurs in a room's member set. -/
def ServerState.multiplicity (st : ServerState) (r : RoomKey) (sid : SocketId) : Nat :=
  st.rooms.count (r, sid)

/-- Model of `socket.join(room)`: the adapter adds the socket id to the
room's set; adding an element already present changes nothing. -/
def ServerState.joinRoom (st : ServerState) (sid : SocketId) (r : RoomKey) : ServerState :=
  if (r, sid) ∈ st.rooms then st else { st with rooms := st.rooms ++ [(r, sid)] }

/-- The current member sockets of a room. -/
def ServerState.roomMembers (st : ServerState) (r : RoomKey) : List SocketId :=
  (st.rooms.filter (fun p => p.1 == r)).map (fun p => p.2)

/-- Payloads of outbound (server → client) events. -/
inductive Payload where
  | connError (msg : String)
  | userJoined (userId : String) (documentId : String)
  | documentChange (documentId : String) (content : String) (position : Nat) (userId : String)
  | newMessage (conversationId : String) (msgId : String) (content : String)
      (senderId : String) (createdAt : String)
  | userTyping (userId : String) (isTyping : Bool)
  | userPresenceChange (userId : String) (status : String)
deriving DecidableEq, Repr

/-- One delivery: which socket receives which payload. -/
abbrev Delivery := SocketId × Payload

/-- Model of `socket.to(room).emit(...)`: delivered to every current member
of the room except the sender (whether or not the sender is itself a
member). -/
def emitToRoom (st : ServerState) (sender : SocketId) (r : RoomKey) (p : Payload) :
    List Delivery :=
  ((st.roomMembers r).filter (fun m => m != sender)).map (fun m => (m, p))

/-- Model of `io.emit(...)`: delivered to every connected socket, the
sender included. -/
def emitAll (st : ServerState) (p : Payload) : List Delivery :=
  st.conns.map (fun c => (c.sid, p))

/-- Inbound events. `connect` carries the handshake token's verification
outcome; the two join events carry a `dbFail` flag that is true when the
persistence lookup for this event throws (caught by the handler's
`try/catch`). -/
inductive InEvent where
  | connect (sid : SocketId) (tok : TokenCheck)
  | joinConversation (sid : SocketId) (conversationId : String) (dbFail : Bool)
  | joinDocument (sid : SocketId) (documentId : String) (dbFail : Bool)
  | documentChange (sid : SocketId) (documentId : String) (content : String) (position : Nat)
  | newMessage (sid : SocketId) (conversationId : String) (msgId : String)
      (content : String) (createdAt : String)
  | typing (sid : SocketId) (conversationId : String) (isTyping : Bool)
  | setPresence (sid : SocketId) (status : String)
  | disconnect (sid : SocketId)
deriving DecidableEq, Repr

/-- One step of the event router: the state after handling the event and the
list of deliveries it produced, in emission order.

* `connect`: the authentication middleware; a bad token refuses the
  connection with an `Authentication error` and no handler ever runs for it.
  On success the socket is registered and auto-joined to `user:<id>`.
  Socket ids are unique per connection, so a `connect` with an id already in
  use does not occur; it is mapped to a no-op.
* events other than `connect` from a socket that is not connected have no
  registered handler and do nothing.
* `disconnect` (explicit, or the transport's liveness timeout, which the
  transport treats identically): the socket leaves every room and is
  deregistered, then the handler broadcasts the `offline` presence change. -/
def step (db : DB) (st : ServerState) : InEvent → ServerState × List Delivery
  | .connect sid tok =>
    match tok with
    | .valid i e =>
      if st.connected sid then (st, [])
      else
        let st1 : ServerState := { st with conns := st.conns ++ [⟨sid, ⟨i, e⟩⟩] }
        (st1.joinRoom sid (.user i), [])
    | _ => (st, [(sid, .connError "Authentication error")])
  | .joinConversation sid conversationId dbFail =>
    match st.connOf sid with
    | none => (st, [])
    | some c =>
      if dbFail then (st, [])
      else if db.findParticipant conversationId c.user.id then
        (st.joinRoom sid (.conversation conversationId), [])
      else (st, [])
  | .joinDocument sid documentId dbFail =>
    match st.connOf sid with
    | none => (st, [])
    | some c =>
      if dbFail then (st, [])
      else
        match db.findDocument documentId with
        | none => (st, [])
        | some doc =>
          if db.findProjectMember doc.projectId c.user.id then
            let st1 := st.joinRoom sid (.document documentId)
            (st1, emitToRoom st1 sid (.document documentId)
                    (.userJoined c.user.id documentId))
          else (st, [])
  | .documentChange sid documentId content position =>
    match st.connOf sid with
    | none => (st, [])
    | some c =>
      (st, emitToRoom st sid (.document documentId)
             (.documentChange documentId content position c.user.id))
  | .newMessage sid conversationId msgId content createdAt =>
    match st.connOf sid with
    | none => (st, [])
    | some c =>
      (st, emitToRoom st sid (.conversation conversationId)
             (.newMessage conversationId msgId content c.user.id createdAt))
  | .typing sid conversationId isTyping =>
    match st.connOf sid with
    | none => (st, [])
    | some c =>
      (st, emitToRoom st sid (.conversation conversationId)
             (.userTyping c.user.id isTyping))
  | .setPresence sid status =>
    match st.connOf sid with
    | none => (st, [])
    | some c => (st, emitAll st (.userPresenceChange c.user.id status))
  | .disconnect sid =>
    match st.connOf sid with
    | none => (st, [])
    | some c =>
      let st1 : ServerState :=
        { conns := st.conns.filter (fun k => k.sid != sid),
          rooms := st.rooms.filter (fun p => p.2 != sid) }
      (st1, emitAll st1 (.userPresenceChange c.user.id "offline"))

/-- Run a trace of inbound events from a state. -/
def run (db : DB) (st : ServerState) : List InEvent → ServerState
  | [] => st
  | e :: rest => run db (step db st e).1 rest

/-- All deliveries produced by a trace, in order. -/
def runOut (db : DB) (st : ServerState) : List InEvent → List Delivery
  | [] => []
  | e :: rest => (step db st e).2 ++ runOut db (step db st e).1 rest

/-- Well-formedness of a server state: socket ids are unique, the membership
relation has no duplicate pairs (rooms are sets), and every room member is a
connected socket. Holds in the initial state and is preserved by `step`. -/
def ServerState.WF (st : ServerState) : Prop :=
  (st.conns.map Conn.sid).Nodup ∧ st.rooms.Nodup ∧
    ∀ p ∈ st.rooms, st.connected p.2 = true

instance (st : ServerState) : Decidable st.WF := by
  unfold ServerState.WF; infer_instance

/-- Whether event `e`, handled in state `st`, joins socket `s` into room `r`:
either a successful authenticated `connect` auto-joining the user room, or an
authorized join event from the live connection `s` whose lookup did not fail. -/
def addsNow (db : DB) (st : ServerState) (e : InEvent) (r : RoomKey) (s : SocketId) : Bool :=
  match e, r with
  | .connect sid (.valid uid _), .user uid' =>
    sid == s && uid == uid' && !(st.connected s)
  | .joinConversation sid cid dbFail, .conversation cid' =>
    sid == s && cid == cid' && !dbFail &&
      (match st.connOf s with
       | some c => db.findParticipant cid c.user.id
       | none => false)
  | .joinDocument sid did dbFail, .document did' =>
    sid == s && did == did' && !dbFail &&
      (match st.connOf s with
       | some c =>
         match db.findDocument did with
         | some doc => db.findProjectMember doc.projectId c.user.id
         | none => false
       | none => false)
  | _, _ => false

/-- Whether event `e`, handled in state `st`, removes socket `s` from all its
rooms: a disconnect of a live connection. -/
def removesNow (st : ServerState) (e : InEvent) (s : SocketId) : Bool :=
  (e == .disconnect s) && st.connected s

/-- Whether an inbound event is one of the two join events (the only events
through which a connection can request room membership). -/
def isJoinEvent : InEvent → Bool
  | .joinConversation _ _ _ => true
  | .joinDocument _ _ _ => true
  | _ => false

/-! ### Concrete sample data for witnesses and counterexamples -/

/-- Sample database: conversation `c1` has participants `uA` and `uB`;
document `d1` belongs to project `p1`; only `uB` is a member of `p1`. -/
def dbW : DB := ⟨[("c1", "uA"), ("c1", "uB")], [⟨"d1", "p1"⟩], [("p1", "uB")]⟩

def connA : Conn := ⟨0, ⟨"uA", "a@x"⟩⟩

def connB : Conn := ⟨1, ⟨"uB", "b@x"⟩⟩

/-- Sample state: sockets 0 (`uA`) and 1 (`uB`) connected, each in its own
user room; this is `run dbW .init` of two successful connects. -/
def stW : ServerState := ⟨[connA, connB], [(.user "uA", 0), (.user "uB", 1)]⟩

/-- Like `stW`, with socket 0 additionally a member of room `document:d1`. -/
def stD1 : ServerState :=
  ⟨[connA, connB], [(.user "uA", 0), (.user "uB", 1), (.document "d1", 0)]⟩

/-- Like `stW`, with both sockets members of room `document:d1`. -/
def stD2 : ServerState :=
  ⟨[connA, connB], [(.user "uA", 0), (.user "uB", 1), (.document "d1", 0), (.document "d1", 1)]⟩

/-- Like `stW`, with socket 0 additionally a member of room `conversation:c1`. -/
def stC : ServerState :=
  ⟨[connA, connB], [(.user "uA", 0), (.user "uB", 1), (.conversation "c1", 0)]⟩


/-! ### Basic lemmas about rooms and broadcasts -/

theorem count_eq_one_of_nodup_mem {α} [BEq α] [LawfulBEq α] {l : List α} {a : α}
    (h : l.Nodup) (ha : a ∈ l) : l.count a = 1 := by
  induction l with
  | nil => cases ha
  | cons b t ih =>
    rw [List.count_cons]
    rcases List.mem_cons.mp ha with rfl | hat
    · rw [List.count_eq_zero_of_not_mem (List.nodup_cons.mp h).1]
      simp
    · rw [ih (List.nodup_cons.mp h).2 hat]
      have hne : ¬ b = a := by rintro rfl; exact (List.nodup_cons.mp h).1 hat
      simp [hne]

theorem count_map_pair (l : List SocketId) (p : Payload) (m : SocketId) :
    ((l.map fun s => (s, p)).count (m, p)) = l.count m := by
  induction l with
  | nil => rfl
  | cons b t ih =>
    simp only [List.map_cons, List.count_cons, ih, beq_iff_eq, Prod.mk.injEq, and_true]

theorem count_map_sid (l : List Conn) (p : Payload) (s : SocketId) :
    ((l.map fun c => (c.sid, p)).count (s, p)) = (l.map Conn.sid).count s := by
  induction l with
  | nil => rfl
  | cons b t ih =>
    simp only [List.map_cons, List.count_cons, ih, beq_iff_eq, Prod.mk.injEq, and_true]

theorem mem_roomMembers {st : ServerState} {r : RoomKey} {m : SocketId} :
    m ∈ st.roomMembers r ↔ (r, m) ∈ st.rooms := by
  simp only [ServerState.roomMembers, List.mem_map, List.mem_filter, beq_iff_eq]
  constructor
  · rintro ⟨⟨r', m'⟩, ⟨hmem, h1⟩, h2⟩
    cases h1; cases h2; exact hmem
  · intro h
    exact ⟨(r, m), ⟨h, rfl⟩, rfl⟩

theorem roomMembers_nodup {st : ServerState} (hwf : st.WF) (r : RoomKey) :
    (st.roomMembers r).Nodup := by
  have h1 : (st.rooms.filter (fun p => p.1 == r)).Nodup := hwf.2.1.filter _
  refine h1.map_on ?_
  intro x hx y hy hxy
  have hx' := (List.mem_filter.mp hx).2
  have hy' := (List.mem_filter.mp hy).2
  cases x; cases y
  simp_all

theorem emitToRoom_not_sender {st : ServerState} {sender : SocketId} {r : RoomKey}
    {p : Payload} (q : Payload) : (sender, q) ∉ emitToRoom st sender r p := by
  intro hmem
  simp only [emitToRoom, List.mem_map, List.mem_filter, bne_iff_ne] at hmem
  obtain ⟨m, ⟨-, hne⟩, heq⟩ := hmem
  exact hne (congrArg Prod.fst heq)

theorem count_emitToRoom {st : ServerState} (hwf : st.WF) {r : RoomKey} {m sender : SocketId}
    (p : Payload) (hm : m ∈ st.roomMembers r) (hne : m ≠ sender) :
    (emitToRoom st sender r p).count (m, p) = 1 := by
  unfold emitToRoom
  rw [count_map_pair, List.count_filter (by simpa using hne)]
  exact count_eq_one_of_nodup_mem (roomMembers_nodup hwf r) hm

theorem joinRoom_conns (st : ServerState) (sid : SocketId) (r : RoomKey) :
    (st.joinRoom sid r).conns = st.conns := by
  unfold ServerState.joinRoom; split <;> rfl

theorem joinRoom_connOf (st : ServerState) (sid s : SocketId) (r : RoomKey) :
    (st.joinRoom sid r).connOf s = st.connOf s := by
  unfold ServerState.connOf; rw [joinRoom_conns]

theorem joinRoom_of_mem {st : ServerState} {sid : SocketId} {r : RoomKey}
    (h : (r, sid) ∈ st.rooms) : st.joinRoom sid r = st := by
  unfold ServerState.joinRoom; simp [h]

theorem multiplicity_joinRoom_self {st : ServerState} (hwf : st.WF) (sid : SocketId)
    (r : RoomKey) : (st.joinRoom sid r).multiplicity r sid = 1 := by
  unfold ServerState.joinRoom ServerState.multiplicity
  split
  · exact count_eq_one_of_nodup_mem hwf.2.1 (by assumption)
  · rw [List.count_append, List.count_eq_zero.mpr (by assumption)]
    simp

theorem WF_joinRoom {st : ServerState} (hwf : st.WF) {sid : SocketId} (r : RoomKey)
    (hc : st.connected sid = true) : (st.joinRoom sid r).WF := by
  unfold ServerState.joinRoom
  split
  · exact hwf
  · refine ⟨hwf.1, ?_, ?_⟩
    · refine List.Nodup.append hwf.2.1 (List.nodup_singleton _) ?_
      intro x hx hx'
      rw [List.mem_singleton] at hx'
      subst hx'
      exact absurd hx (by assumption)
    · intro p hp
      rcases List.mem_append.mp hp with h | h
      · exact hwf.2.2 p h
      · simp only [List.mem_singleton] at h
        subst h
        exact hc

theorem isMember_iff {st : ServerState} {r : RoomKey} {s : SocketId} :
    st.isMember r s = true ↔ (r, s) ∈ st.rooms := by
  simp [ServerState.isMember]

theorem not_mem_roomMembers_of_not_isMember {st : ServerState} {r : RoomKey} {s : SocketId}
    (h : st.isMember r s = false) : s ∉ st.roomMembers r := by
  intro hmem
  rw [mem_roomMembers] at hmem
  exact absurd (isMember_iff.mpr hmem) (by simp [h])

theorem filter_bne_of_not_mem {l : List SocketId} {s : SocketId} (h : s ∉ l) :
    l.filter (fun m => m != s) = l :=
  List.filter_eq_self.mpr fun m hm => by
    simp only [bne_iff_ne, ne_eq, decide_eq_true_eq]
    rintro rfl
    exact h hm

theorem mem_joinRoom_self (st : ServerState) (sid : SocketId) (r : RoomKey) :
    (r, sid) ∈ (st.joinRoom sid r).rooms := by
  unfold ServerState.joinRoom
  split
  · assumption
  · exact List.mem_append.mpr (Or.inr (List.mem_singleton.mpr rfl))

/-! ### Trace-level machinery -/

theorem connected_iff {st : ServerState} {s : SocketId} :
    st.connected s = true ↔ ∃ c ∈ st.conns, c.sid = s := by
  simp [ServerState.connected, ServerState.connOf, List.find?_isSome, beq_iff_eq]

theorem run_append (db : DB) (st : ServerState) (t1 t2 : List InEvent) :
    run db st (t1 ++ t2) = run db (run db st t1) t2 := by
  induction t1 generalizing st with
  | nil => rfl
  | cons e rest ih => simp only [List.cons_append, run, List.append_eq, ih]

theorem runOut_append (db : DB) (st : ServerState) (t1 t2 : List InEvent) :
    runOut db st (t1 ++ t2) = runOut db st t1 ++ runOut db (run db st t1) t2 := by
  induction t1 generalizing st with
  | nil => rfl
  | cons e rest ih => simp only [List.cons_append, runOut, run, List.append_eq, ih, List.append_assoc]

theorem isMember_joinRoom_mono {st : ServerState} {r : RoomKey} {s : SocketId}
    (j : SocketId) (q : RoomKey) (h : st.isMember r s = true) :
    (st.joinRoom j q).isMember r s = true := by
  unfold ServerState.joinRoom
  split
  · exact h
  · rw [isMember_iff] at h ⊢
    exact List.mem_append_left _ h

theorem isMember_joinRoom_inv {st : ServerState} {r q : RoomKey} {s j : SocketId}
    (h : (st.joinRoom j q).isMember r s = true) :
    st.isMember r s = true ∨ (q = r ∧ j = s) := by
  unfold ServerState.joinRoom at h
  split at h
  · exact Or.inl h
  · rw [isMember_iff] at h
    rcases List.mem_append.mp h with h | h
    · exact Or.inl (isMember_iff.mpr h)
    · rw [List.mem_singleton] at h
      exact Or.inr ⟨congrArg Prod.fst h.symm, congrArg Prod.snd h.symm⟩

theorem step_preserves_member (db : DB) (st : ServerState) (e : InEvent) (r : RoomKey)
    (s : SocketId) (hne : e ≠ .disconnect s) (hm : st.isMember r s = true) :
    ((step db st e).1).isMember r s = true := by
  cases e with
  | connect sid tok =>
    cases tok with
    | valid i em =>
      cases hcon : st.connected sid with
      | true => simpa [step, hcon] using hm
      | false =>
        simp only [step, hcon]
        exact isMember_joinRoom_mono _ _ hm
    | missing => simpa [step] using hm
    | invalid => simpa [step] using hm
  | joinConversation sid cid f =>
    cases hco : st.connOf sid with
    | none => simpa [step, hco] using hm
    | some c =>
      cases f with
      | true => simpa [step, hco] using hm
      | false =>
        cases hp : db.findParticipant cid c.user.id with
        | false => simpa [step, hco, hp] using hm
        | true =>
          simp only [step, hco, hp]
          simpa using isMember_joinRoom_mono _ _ hm
  | joinDocument sid did f =>
    cases hco : st.connOf sid with
    | none => simpa [step, hco] using hm
    | some c =>
      cases f with
      | true => simpa [step, hco] using hm
      | false =>
        cases hd : db.findDocument did with
        | none => simpa [step, hco, hd] using hm
        | some doc =>
          cases hpm : db.findProjectMember doc.projectId c.user.id with
          | false => simpa [step, hco, hd, hpm] using hm
          | true =>
            simp only [step, hco, hd, hpm]
            simpa using isMember_joinRoom_mono _ _ hm
  | documentChange sid did content pos =>
    cases hco : st.connOf sid <;> simpa [step, hco] using hm
  | newMessage sid cid mid content created =>
    cases hco : st.connOf sid <;> simpa [step, hco] using hm
  | typing sid cid ty =>
    cases hco : st.connOf sid <;> simpa [step, hco] using hm
  | setPresence sid status =>
    cases hco : st.connOf sid <;> simpa [step, hco] using hm
  | disconnect sid =>
    cases hco : st.connOf sid with
    | none => simpa [step, hco] using hm
    | some c =>
      have hsne : s ≠ sid := fun h => hne (by rw [h])
      simp only [step, hco]
      rw [isMember_iff] at hm ⊢
      exact List.mem_filter.mpr ⟨hm, by simpa using hsne⟩

theorem step_adds (db : DB) (st : ServerState) (e : InEvent) (r : RoomKey) (s : SocketId)
    (hadd : addsNow db st e r s = true) : ((step db st e).1).isMember r s = true := by
  cases e with
  | connect sid tok =>
    cases tok with
    | valid i em =>
      cases r with
      | user uid =>
        simp only [addsNow, Bool.and_eq_true, beq_iff_eq, Bool.not_eq_true'] at hadd
        obtain ⟨⟨rfl, rfl⟩, hcon⟩ := hadd
        simp only [step, hcon]
        exact isMember_iff.mpr (mem_joinRoom_self _ _ _)
      | conversation _ => simp [addsNow] at hadd
      | document _ => simp [addsNow] at hadd
    | missing => simp [addsNow] at hadd
    | invalid => simp [addsNow] at hadd
  | joinConversation sid cid f =>
    cases r with
    | conversation cid' =>
      simp only [addsNow, Bool.and_eq_true, beq_iff_eq, Bool.not_eq_true'] at hadd
      obtain ⟨⟨⟨rfl, rfl⟩, rfl⟩, hcheck⟩ := hadd
      cases hco : st.connOf sid with
      | none => rw [hco] at hcheck; simp at hcheck
      | some c =>
        simp only [hco] at hcheck
        simp only [step, hco, hcheck]
        simpa using isMember_iff.mpr (mem_joinRoom_self _ _ _)
    | user _ => simp [addsNow] at hadd
    | document _ => simp [addsNow] at hadd
  | joinDocument sid did f =>
    cases r with
    | document did' =>
      simp only [addsNow, Bool.and_eq_true, beq_iff_eq, Bool.not_eq_true'] at hadd
      obtain ⟨⟨⟨rfl, rfl⟩, rfl⟩, hcheck⟩ := hadd
      cases hco : st.connOf sid with
      | none => rw [hco] at hcheck; simp at hcheck
      | some c =>
        simp only [hco] at hcheck
        cases hd : db.findDocument did with
        | none => rw [hd] at hcheck; simp at hcheck
        | some doc =>
          simp only [hd] at hcheck
          simp only [step, hco, hd, hcheck]
          simpa using isMember_iff.mpr (mem_joinRoom_self _ _ _)
    | user _ => simp [addsNow] at hadd
    | conversation _ => simp [addsNow] at hadd
  | documentChange sid did content pos => simp [addsNow] at hadd
  | newMessage sid cid mid content created => simp [addsNow] at hadd
  | typing sid cid ty => simp [addsNow] at hadd
  | setPresence sid status => simp [addsNow] at hadd
  | disconnect sid => simp [addsNow] at hadd

theorem step_member_inv (db : DB) (st : ServerState) (e : InEvent) (r : RoomKey)
    (s : SocketId) (hm : ((step db st e).1).isMember r s = true) :
    addsNow db st e r s = true ∨
      (st.isMember r s = true ∧ removesNow st e s = false) := by
  cases e with
  | connect sid tok =>
    cases tok with
    | valid i em =>
      cases hcon : st.connected sid with
      | true =>
        right
        refine ⟨by simpa [step, hcon] using hm, ?_⟩
        simp [removesNow]
      | false =>
        simp only [step, hcon] at hm
        rcases isMember_joinRoom_inv hm with h | ⟨hr, hs⟩
        · right
          refine ⟨h, by simp [removesNow]⟩
        · left
          subst hs
          subst hr
          simp [addsNow, hcon]
    | missing =>
      right
      exact ⟨by simpa [step] using hm, by simp [removesNow]⟩
    | invalid =>
      right
      exact ⟨by simpa [step] using hm, by simp [removesNow]⟩
  | joinConversation sid cid f =>
    cases hco : st.connOf sid with
    | none =>
      right
      exact ⟨by simpa [step, hco] using hm, by simp [removesNow]⟩
    | some c =>
      cases f with
      | true =>
        right
        exact ⟨by simpa [step, hco] using hm, by simp [removesNow]⟩
      | false =>
        cases hp : db.findParticipant cid c.user.id with
        | false =>
          right
          exact ⟨by simpa [step, hco, hp] using hm, by simp [removesNow]⟩
        | true =>
          simp only [step, hco, hp] at hm
          rcases isMember_joinRoom_inv (by simpa using hm) with h | ⟨hr, hs⟩
          · exact Or.inr ⟨h, by simp [removesNow]⟩
          · left
            subst hs
            subst hr
            simp [addsNow, hco, hp]
  | joinDocument sid did f =>
    cases hco : st.connOf sid with
    | none =>
      right
      exact ⟨by simpa [step, hco] using hm, by simp [removesNow]⟩
    | some c =>
      cases f with
      | true =>
        right
        exact ⟨by simpa [step, hco] using hm, by simp [removesNow]⟩
      | false =>
        cases hd : db.findDocument did with
        | none =>
          right
          exact ⟨by simpa [step, hco, hd] using hm, by simp [removesNow]⟩
        | some doc =>
          cases hpm : db.findProjectMember doc.projectId c.user.id with
          | false =>
            right
            exact ⟨by simpa [step, hco, hd, hpm] using hm, by simp [removesNow]⟩
          | true =>
            simp only [step, hco, hd, hpm] at hm
            rcases isMember_joinRoom_inv (by simpa using hm) with h | ⟨hr, hs⟩
            · exact Or.inr ⟨h, by simp [removesNow]⟩
            · left
              subst hs
              subst hr
              simp [addsNow, hco, hd, hpm]
  | documentChange sid did content pos =>
    right
    cases hco : st.connOf sid <;>
      exact ⟨by simpa [step, hco] using hm, by simp [removesNow]⟩
  | newMessage sid cid mid content created =>
    right
    cases hco : st.connOf sid <;>
      exact ⟨by simpa [step, hco] using hm, by simp [removesNow]⟩
  | typing sid cid ty =>
    right
    cases hco : st.connOf sid <;>
      exact ⟨by simpa [step, hco] using hm, by simp [removesNow]⟩
  | setPresence sid status =>
    right
    cases hco : st.connOf sid <;>
      exact ⟨by simpa [step, hco] using hm, by simp [removesNow]⟩
  | disconnect sid =>
    cases hco : st.connOf sid with
    | none =>
      right
      refine ⟨by simpa [step, hco] using hm, ?_⟩
      cases hss : (InEvent.disconnect sid == InEvent.disconnect s) with
      | false => simp [removesNow, hss]
      | true =>
        have heq : sid = s := by simpa using hss
        subst heq
        simp [removesNow, ServerState.connected, hco]
    | some c =>
      simp only [step, hco] at hm
      rw [isMember_iff] at hm
      have h1 := (List.mem_filter.mp hm).1
      have h2 := (List.mem_filter.mp hm).2
      right
      refine ⟨isMember_iff.mpr h1, ?_⟩
      simp only [bne_iff_ne, ne_eq, decide_eq_true_eq] at h2
      have : (InEvent.disconnect sid == InEvent.disconnect s) = false := by
        simp only [beq_eq_false_iff_ne, ne_eq, InEvent.disconnect.injEq]
        exact fun h => h2 (h ▸ rfl)
      simp [removesNow, this]

theorem member_connected {st : ServerState} (hwf : st.WF) {r : RoomKey} {s : SocketId}
    (hm : st.isMember r s = true) : st.connected s = true :=
  hwf.2.2 (r, s) (isMember_iff.mp hm)

theorem connected_append_conn {st : ServerState} {s : SocketId} (k : Conn)
    (h : st.connected s = true) :
    (ServerState.mk (st.conns ++ [k]) st.rooms).connected s = true := by
  rw [connected_iff] at h ⊢
  obtain ⟨c, hc, hcs⟩ := h
  exact ⟨c, List.mem_append_left _ hc, hcs⟩

theorem WF_step (db : DB) (st : ServerState) (e : InEvent) (hwf : st.WF) :
    ((step db st e).1).WF := by
  cases e with
  | connect sid tok =>
    cases tok with
    | valid i em =>
      cases hcon : st.connected sid with
      | true => simpa [step, hcon] using hwf
      | false =>
        simp only [step, hcon]
        have hsid : sid ∉ st.conns.map Conn.sid := by
          intro hmem
          obtain ⟨c, hc, hcs⟩ := List.mem_map.mp hmem
          exact absurd (connected_iff.mpr ⟨c, hc, hcs⟩) (by simp [hcon])
        have hwf1 : (ServerState.mk (st.conns ++ [⟨sid, ⟨i, em⟩⟩]) st.rooms).WF := by
          refine ⟨?_, hwf.2.1, ?_⟩
          · rw [List.map_append]
            refine List.Nodup.append hwf.1 (by simp) ?_
            intro x hx hx'
            simp only [List.map_cons, List.map_nil, List.mem_singleton] at hx'
            subst hx'
            exact hsid hx
          · intro p hp
            exact connected_append_conn _ (hwf.2.2 p hp)
        refine WF_joinRoom hwf1 _ ?_
        exact connected_iff.mpr ⟨⟨sid, ⟨i, em⟩⟩, List.mem_append_right _ (by simp), rfl⟩
    | missing => simpa [step] using hwf
    | invalid => simpa [step] using hwf
  | joinConversation sid cid f =>
    cases hco : st.connOf sid with
    | none => simpa [step, hco] using hwf
    | some c =>
      cases f with
      | true => simpa [step, hco] using hwf
      | false =>
        cases hp : db.findParticipant cid c.user.id with
        | false => simpa [step, hco, hp] using hwf
        | true =>
          simp only [step, hco, hp]
          simpa using WF_joinRoom hwf _ (by simp [ServerState.connected, hco])
  | joinDocument sid did f =>
    cases hco : st.connOf sid with
    | none => simpa [step, hco] using hwf
    | some c =>
      cases f with
      | true => simpa [step, hco] using hwf
      | false =>
        cases hd : db.findDocument did with
        | none => simpa [step, hco, hd] using hwf
        | some doc =>
          cases hpm : db.findProjectMember doc.projectId c.user.id with
          | false => simpa [step, hco, hd, hpm] using hwf
          | true =>
            simp only [step, hco, hd, hpm]
            simpa using WF_joinRoom hwf _ (by simp [ServerState.connected, hco])
  | documentChange sid did content pos =>
    cases hco : st.connOf sid <;> simpa [step, hco] using hwf
  | newMessage sid cid mid content created =>
    cases hco : st.connOf sid <;> simpa [step, hco] using hwf
  | typing sid cid ty =>
    cases hco : st.connOf sid <;> simpa [step, hco] using hwf
  | setPresence sid status =>
    cases hco : st.connOf sid <;> simpa [step, hco] using hwf
  | disconnect sid =>
    cases hco : st.connOf sid with
    | none => simpa [step, hco] using hwf
    | some c =>
      simp only [step, hco]
      refine ⟨?_, hwf.2.1.sublist (List.filter_sublist _), ?_⟩
      · exact hwf.1.sublist ((List.filter_sublist _).map Conn.sid)
      · intro p hp
        have h1 := (List.mem_filter.mp hp).1
        have h2 := (List.mem_filter.mp hp).2
        have hcn := hwf.2.2 p h1
        rw [connected_iff] at hcn
        obtain ⟨k, hk, hks⟩ := hcn
        refine connected_iff.mpr ⟨k, List.mem_filter.mpr ⟨hk, ?_⟩, hks⟩
        rw [hks]
        exact h2

theorem WF_run (db : DB) (st : ServerState) (t : List InEvent) (hwf : st.WF) :
    (run db st t).WF := by
  induction t generalizing st with
  | nil => exact hwf
  | cons e rest ih => exact ih _ (WF_step db st e hwf)

theorem WF_init : ServerState.init.WF := by
  refine ⟨List.nodup_nil, List.nodup_nil, ?_⟩
  intro p hp
  cases hp

/-! ### Claim theorems -/

/-- C5: unauthorized joins are silent no-ops — a `join-conversation` from a
non-participant, and a `join-document` for a missing document or from a
non-member of the owning project, leave the state unchanged and produce no
delivery to anyone. -/
theorem C5_unauthorized_join_noop (db : DB) (st : ServerState) (sid : SocketId) (c : Conn)
    (hc : st.connOf sid = some c) :
    (∀ conversationId, db.findParticipant conversationId c.user.id = false →
       step db st (.joinConversation sid conversationId false) = (st, [])) ∧
    (∀ documentId, db.findDocument documentId = none →
       step db st (.joinDocument sid documentId false) = (st, [])) ∧
    (∀ documentId doc, db.findDocument documentId = some doc →
       db.findProjectMember doc.projectId c.user.id = false →
       step db st (.joinDocument sid documentId false) = (st, [])) := by
  refine ⟨?_, ?_, ?_⟩
  · intro conversationId h
    simp [step, hc, h]
  · intro documentId h
    simp [step, hc, h]
  · intro documentId doc h1 h2
    simp [step, hc, h1, h2]

/-- C5 witness at a concrete input: `uA` is no participant of `c2`, `d2` does
not exist, and `uA` is no member of `d1`'s project. -/
theorem C5_unauthorized_join_noop_witness :
    step dbW stW (.joinConversation 0 "c2" false) = (stW, []) ∧
    step dbW stW (.joinDocument 0 "d2" false) = (stW, []) ∧
    step dbW stW (.joinDocument 0 "d1" false) = (stW, []) :=
  ⟨(C5_unauthorized_join_noop dbW stW 0 connA rfl).1 "c2" rfl,
   (C5_unauthorized_join_noop dbW stW 0 connA rfl).2.1 "d2" rfl,
   (C5_unauthorized_join_noop dbW stW 0 connA rfl).2.2 "d1" ⟨"d1", "p1"⟩ rfl rfl⟩

/-- C8: a persistence-lookup failure (the lookup throws, or the referenced
document is not found) makes the handler abort silently for that event only:
the state is unchanged (in particular no room membership changes), nothing is
delivered to any client, and the connection remains open. -/
theorem C8_lookup_failure_silent (db : DB) (st : ServerState) (sid : SocketId) (c : Conn)
    (hc : st.connOf sid = some c) :
    (∀ conversationId, step db st (.joinConversation sid conversationId true) = (st, [])) ∧
    (∀ documentId, step db st (.joinDocument sid documentId true) = (st, [])) ∧
    (∀ documentId, db.findDocument documentId = none →
       step db st (.joinDocument sid documentId false) = (st, [])) ∧
    st.connected sid = true := by
  refine ⟨?_, ?_, ?_, ?_⟩
  · intro conversationId
    simp [step, hc]
  · intro documentId
    simp [step, hc]
  · intro documentId h
    simp [step, hc, h]
  · simp [ServerState.connected, hc]

/-- C8 witness at a concrete input: throwing lookups on both join handlers
and a missing document, each a silent no-op with the connection kept open. -/
theorem C8_lookup_failure_silent_witness :
    step dbW stW (.joinConversation 0 "c1" true) = (stW, []) ∧
    step dbW stW (.joinDocument 0 "d1" true) = (stW, []) ∧
    step dbW stW (.joinDocument 0 "dX" false) = (stW, []) ∧
    stW.connected 0 = true :=
  ⟨(C8_lookup_failure_silent dbW stW 0 connA rfl).1 "c1",
   (C8_lookup_failure_silent dbW stW 0 connA rfl).2.1 "d1",
   (C8_lookup_failure_silent dbW stW 0 connA rfl).2.2.1 "dX" rfl,
   (C8_lookup_failure_silent dbW stW 0 connA rfl).2.2.2⟩

/-- C1: sender-exclusion of room broadcasts — for the `user-joined`
notification of a successful `join-document` and for the re-broadcasts of
`document-change`, `new-message` and `typing`, the triggering connection
never receives the broadcast, and every other current member of the target
room receives it exactly once. -/
theorem C1_sender_exclusion (db : DB) (st : ServerState) (sid : SocketId) (c : Conn)
    (hwf : st.WF) (hc : st.connOf sid = some c) :
    (∀ documentId content position,
       (∀ q, (sid, q) ∉ (step db st (.documentChange sid documentId content position)).2) ∧
       ∀ m ∈ st.roomMembers (.document documentId), m ≠ sid →
         ((step db st (.documentChange sid documentId content position)).2).count
           (m, .documentChange documentId content position c.user.id) = 1) ∧
    (∀ conversationId msgId content createdAt,
       (∀ q, (sid, q) ∉
          (step db st (.newMessage sid conversationId msgId content createdAt)).2) ∧
       ∀ m ∈ st.roomMembers (.conversation conversationId), m ≠ sid →
         ((step db st (.newMessage sid conversationId msgId content createdAt)).2).count
           (m, .newMessage conversationId msgId content c.user.id createdAt) = 1) ∧
    (∀ conversationId isTyping,
       (∀ q, (sid, q) ∉ (step db st (.typing sid conversationId isTyping)).2) ∧
       ∀ m ∈ st.roomMembers (.conversation conversationId), m ≠ sid →
         ((step db st (.typing sid conversationId isTyping)).2).count
           (m, .userTyping c.user.id isTyping) = 1) ∧
    (∀ documentId doc, db.findDocument documentId = some doc →
       db.findProjectMember doc.projectId c.user.id = true →
       (∀ q, (sid, q) ∉ (step db st (.joinDocument sid documentId false)).2) ∧
       ∀ m ∈ (st.joinRoom sid (.document documentId)).roomMembers (.document documentId),
         m ≠ sid →
         ((step db st (.joinDocument sid documentId false)).2).count
           (m, .userJoined c.user.id documentId) = 1) := by
  refine ⟨?_, ?_, ?_, ?_⟩
  · intro documentId content position
    have hout : (step db st (.documentChange sid documentId content position)).2
        = emitToRoom st sid (.document documentId)
            (.documentChange documentId content position c.user.id) := by
      simp [step, hc]
    rw [hout]
    exact ⟨emitToRoom_not_sender, fun m hm hne => count_emitToRoom hwf _ hm hne⟩
  · intro conversationId msgId content createdAt
    have hout : (step db st (.newMessage sid conversationId msgId content createdAt)).2
        = emitToRoom st sid (.conversation conversationId)
            (.newMessage conversationId msgId content c.user.id createdAt) := by
      simp [step, hc]
    rw [hout]
    exact ⟨emitToRoom_not_sender, fun m hm hne => count_emitToRoom hwf _ hm hne⟩
  · intro conversationId isTyping
    have hout : (step db st (.typing sid conversationId isTyping)).2
        = emitToRoom st sid (.conversation conversationId)
            (.userTyping c.user.id isTyping) := by
      simp [step, hc]
    rw [hout]
    exact ⟨emitToRoom_not_sender, fun m hm hne => count_emitToRoom hwf _ hm hne⟩
  · intro documentId doc hdoc hpm
    have hconn : st.connected sid = true := by
      simp [ServerState.connected, hc]
    have hwf1 : (st.joinRoom sid (.document documentId)).WF := WF_joinRoom hwf _ hconn
    have hout : (step db st (.joinDocument sid documentId false)).2
        = emitToRoom (st.joinRoom sid (.document documentId)) sid (.document documentId)
            (.userJoined c.user.id documentId) := by
      simp [step, hc, hdoc, hpm]
    rw [hout]
    exact ⟨emitToRoom_not_sender, fun m hm hne => count_emitToRoom hwf1 _ hm hne⟩

/-- C1 witness at a concrete input: socket 1 (`uB`) broadcasting into
`document:d1` with both sockets members (`stD2`), and joining `document:d1`
from `stD1` where socket 0 is already a member. -/
theorem C1_sender_exclusion_witness :
    (∀ q, ((1 : SocketId), q) ∉ (step dbW stD2 (.documentChange 1 "d1" "x" 0)).2) ∧
    ((step dbW stD2 (.documentChange 1 "d1" "x" 0)).2).count
      (0, .documentChange "d1" "x" 0 "uB") = 1 ∧
    ((step dbW stD1 (.joinDocument 1 "d1" false)).2).count (0, .userJoined "uB" "d1") = 1 :=
  ⟨((C1_sender_exclusion dbW stD2 1 connB (by decide) rfl).1 "d1" "x" 0).1,
   ((C1_sender_exclusion dbW stD2 1 connB (by decide) rfl).1 "d1" "x" 0).2 0
     (by decide) (by decide),
   ((C1_sender_exclusion dbW stD1 1 connB (by decide) rfl).2.2.2 "d1" ⟨"d1", "p1"⟩
     rfl rfl).2 0 (by decide) (by decide)⟩

/-- C4 counterexample: in `stD1`-like state reached by a run, socket 0 (`uA`)
is not a member of room `document:d1`, yet its `document-change` event is
still re-broadcast to member socket 1 — refuting the claim that an event
from a non-member produces no broadcast. -/
theorem C4_counterexample :
    (run dbW .init [.connect 0 (.valid "uA" "a@x"), .connect 1 (.valid "uB" "b@x"),
        .joinDocument 1 "d1" false]).isMember (.document "d1") 0 = false ∧
    (step dbW (run dbW .init [.connect 0 (.valid "uA" "a@x"), .connect 1 (.valid "uB" "b@x"),
        .joinDocument 1 "d1" false]) (.documentChange 0 "d1" "x" 0)).2
      = [(1, .documentChange "d1" "x" 0 "uA")] :=
  ⟨rfl, rfl⟩

/-- C4 amended: `document-change` and `new-message` are re-broadcast to the
other members of the target room unconditionally — the handlers perform no
membership check on the emitting connection, so an event from a connected
non-member is still delivered to every current member of the room. -/
theorem C4_no_membership_precondition (db : DB) (st : ServerState) (sid : SocketId) (c : Conn)
    (hc : st.connOf sid = some c) :
    (∀ documentId content position,
       st.isMember (.document documentId) sid = false →
       step db st (.documentChange sid documentId content position)
         = (st, (st.roomMembers (.document documentId)).map
             (fun m => (m, .documentChange documentId content position c.user.id)))) ∧
    (∀ conversationId msgId content createdAt,
       st.isMember (.conversation conversationId) sid = false →
       step db st (.newMessage sid conversationId msgId content createdAt)
         = (st, (st.roomMembers (.conversation conversationId)).map
             (fun m => (m, .newMessage conversationId msgId content c.user.id createdAt)))) := by
  constructor
  · intro documentId content position hnm
    have hfil := filter_bne_of_not_mem (not_mem_roomMembers_of_not_isMember hnm)
    simp [step, hc, emitToRoom, hfil]
  · intro conversationId msgId content createdAt hnm
    have hfil := filter_bne_of_not_mem (not_mem_roomMembers_of_not_isMember hnm)
    simp [step, hc, emitToRoom, hfil]

/-- C4 amended-claim witness at a concrete input: non-member socket 1
broadcasting `document-change` into `document:d1` (member: socket 0), and
non-member socket 1 broadcasting `new-message` into `conversation:c1`
(member: socket 0). -/
theorem C4_no_membership_precondition_witness :
    step dbW stD1 (.documentChange 1 "d1" "x" 0)
      = (stD1, [(0, .documentChange "d1" "x" 0 "uB")]) ∧
    step dbW stC (.newMessage 1 "c1" "m1" "hi" "t1")
      = (stC, [(0, .newMessage "c1" "m1" "hi" "uB" "t1")]) :=
  ⟨(C4_no_membership_precondition dbW stD1 1 connB rfl).1 "d1" "x" 0 rfl,
   (C4_no_membership_precondition dbW stC 1 connB rfl).2 "c1" "m1" "hi" "t1" rfl⟩

/-- C6: after a connection disconnects (explicitly, or by the transport's
liveness timeout, which it treats identically), it is absent from every
room's membership set, and the handler emits exactly one process-wide
`user-presence-change {userId, "offline"}` broadcast: the output is that
single broadcast, delivered once to each remaining connected socket. -/
theorem C6_disconnect_cleanup (db : DB) (st : ServerState) (sid : SocketId) (c : Conn)
    (hwf : st.WF) (hc : st.connOf sid = some c) :
    (∀ r, ((step db st (.disconnect sid)).1).isMember r sid = false) ∧
    (step db st (.disconnect sid)).2
      = ((step db st (.disconnect sid)).1).conns.map
          (fun k => (k.sid, .userPresenceChange c.user.id "offline")) ∧
    ∀ x ∈ ((step db st (.disconnect sid)).1).conns,
      ((step db st (.disconnect sid)).2).count
        (x.sid, .userPresenceChange c.user.id "offline") = 1 := by
  have hst : (step db st (.disconnect sid)).1
      = ⟨st.conns.filter (fun k => k.sid != sid), st.rooms.filter (fun p => p.2 != sid)⟩ := by
    simp [step, hc]
  have hout : (step db st (.disconnect sid)).2
      = emitAll ⟨st.conns.filter (fun k => k.sid != sid),
                 st.rooms.filter (fun p => p.2 != sid)⟩
          (.userPresenceChange c.user.id "offline") := by
    simp [step, hc]
  refine ⟨?_, ?_, ?_⟩
  · intro r
    rw [hst]
    have hnot : ¬ ((ServerState.mk (st.conns.filter (fun k => k.sid != sid))
        (st.rooms.filter (fun p => p.2 != sid))).isMember r sid = true) := by
      rw [isMember_iff]
      intro hmem
      have h2 := (List.mem_filter.mp hmem).2
      simp at h2
    simpa using hnot
  · rw [hst, hout]
    rfl
  · intro x hx
    rw [hst] at hx
    rw [hout]
    unfold emitAll
    rw [count_map_sid]
    have hnodup : ((st.conns.filter (fun k => k.sid != sid)).map Conn.sid).Nodup :=
      hwf.1.sublist ((List.filter_sublist _).map Conn.sid)
    exact count_eq_one_of_nodup_mem hnodup (List.mem_map_of_mem Conn.sid hx)

/-- C6 witness at a concrete input: socket 1 disconnects from `stD2`. -/
theorem C6_disconnect_cleanup_witness :
    ((step dbW stD2 (.disconnect 1)).1).isMember (.document "d1") 1 = false ∧
    (step dbW stD2 (.disconnect 1)).2
      = ((step dbW stD2 (.disconnect 1)).1).conns.map
          (fun k => (k.sid, .userPresenceChange "uB" "offline")) ∧
    ((step dbW stD2 (.disconnect 1)).2).count (0, .userPresenceChange "uB" "offline") = 1 :=
  ⟨(C6_disconnect_cleanup dbW stD2 1 connB (by decide) rfl).1 (.document "d1"),
   (C6_disconnect_cleanup dbW stD2 1 connB (by decide) rfl).2.1,
   (C6_disconnect_cleanup dbW stD2 1 connB (by decide) rfl).2.2 connA (by decide)⟩

/-- C7: idempotence of join — for a connection authorized on document `D`,
issuing `join-document(D)` twice leaves its membership multiplicity in room
`document:D` at 1, and any subsequent broadcast into that room by another
sender is delivered to it exactly once (hence never twice). -/
theorem C7_join_idempotent (db : DB) (st : ServerState) (sid : SocketId) (c : Conn)
    (doc : Document) (documentId : String)
    (hwf : st.WF) (hc : st.connOf sid = some c)
    (hdoc : db.findDocument documentId = some doc)
    (hpm : db.findProjectMember doc.projectId c.user.id = true) :
    ((step db (step db st (.joinDocument sid documentId false)).1
        (.joinDocument sid documentId false)).1).multiplicity (.document documentId) sid = 1 ∧
    ∀ sender p, sender ≠ sid →
      (emitToRoom (step db (step db st (.joinDocument sid documentId false)).1
          (.joinDocument sid documentId false)).1 sender (.document documentId) p).count
        (sid, p) = 1 := by
  have hconn : st.connected sid = true := by simp [ServerState.connected, hc]
  have hst1 : (step db st (.joinDocument sid documentId false)).1
      = st.joinRoom sid (.document documentId) := by
    simp [step, hc, hdoc, hpm]
  set st1 := st.joinRoom sid (.document documentId) with hdef
  have hwf1 : st1.WF := WF_joinRoom hwf _ hconn
  have hc1 : st1.connOf sid = some c := by rw [joinRoom_connOf]; exact hc
  have hmem1 : (RoomKey.document documentId, sid) ∈ st1.rooms := mem_joinRoom_self st sid _
  have hst2 : (step db st1 (.joinDocument sid documentId false)).1 = st1 := by
    simp [step, hc1, hdoc, hpm]
    exact joinRoom_of_mem hmem1
  rw [hst1, hst2]
  refine ⟨?_, ?_⟩
  · rw [hdef]
    exact multiplicity_joinRoom_self hwf sid _
  · intro sender p hne
    exact count_emitToRoom hwf1 p (mem_roomMembers.mpr hmem1) hne.symm

/-- C7 witness at a concrete input: socket 1 (`uB`, authorized for `d1`)
joins `document:d1` twice from `stW`. -/
theorem C7_join_idempotent_witness :
    ((step dbW (step dbW stW (.joinDocument 1 "d1" false)).1
        (.joinDocument 1 "d1" false)).1).multiplicity (.document "d1") 1 = 1 ∧
    (emitToRoom (step dbW (step dbW stW (.joinDocument 1 "d1" false)).1
        (.joinDocument 1 "d1" false)).1 0 (.document "d1")
      (.documentChange "d1" "y" 2 "uA")).count (1, .documentChange "d1" "y" 2 "uA") = 1 :=
  ⟨(C7_join_idempotent dbW stW 1 connB ⟨"d1", "p1"⟩ "d1" (by decide) rfl rfl rfl).1,
   (C7_join_idempotent dbW stW 1 connB ⟨"d1", "p1"⟩ "d1" (by decide) rfl rfl rfl).2 0
     (.documentChange "d1" "y" 2 "uA") (by decide)⟩

/-- C10: a repeated `join-document` by a connection that is already a member
of room `document:<id>` leaves the state unchanged (membership multiplicity
stays 1 under well-formedness), yet emits a fresh `user-joined` notification,
delivered exactly once to each other current member of the room. -/
theorem C10_rejoin_renotifies (db : DB) (st : ServerState) (sid : SocketId) (c : Conn)
    (doc : Document) (documentId : String)
    (hwf : st.WF) (hc : st.connOf sid = some c)
    (hm : st.isMember (.document documentId) sid = true)
    (hdoc : db.findDocument documentId = some doc)
    (hpm : db.findProjectMember doc.projectId c.user.id = true) :
    (step db st (.joinDocument sid documentId false)).1 = st ∧
    st.multiplicity (.document documentId) sid = 1 ∧
    ∀ m ∈ st.roomMembers (.document documentId), m ≠ sid →
      ((step db st (.joinDocument sid documentId false)).2).count
        (m, .userJoined c.user.id documentId) = 1 := by
  have hmem : (RoomKey.document documentId, sid) ∈ st.rooms := isMember_iff.mp hm
  have hjoin : st.joinRoom sid (.document documentId) = st := joinRoom_of_mem hmem
  have hst : (step db st (.joinDocument sid documentId false)).1 = st := by
    simp [step, hc, hdoc, hpm]
    exact hjoin
  have hout : (step db st (.joinDocument sid documentId false)).2
      = emitToRoom st sid (.document documentId) (.userJoined c.user.id documentId) := by
    simp [step, hc, hdoc, hpm, hjoin]
  refine ⟨hst, ?_, ?_⟩
  · exact count_eq_one_of_nodup_mem hwf.2.1 hmem
  · intro m hmm hne
    rw [hout]
    exact count_emitToRoom hwf _ hmm hne

/-- C10 witness at a concrete input: socket 1, already a member of
`document:d1` in `stD2`, re-joins; socket 0 receives a fresh `user-joined`. -/
theorem C10_rejoin_renotifies_witness :
    (step dbW stD2 (.joinDocument 1 "d1" false)).1 = stD2 ∧
    stD2.multiplicity (.document "d1") 1 = 1 ∧
    ((step dbW stD2 (.joinDocument 1 "d1" false)).2).count (0, .userJoined "uB" "d1") = 1 :=
  ⟨(C10_rejoin_renotifies dbW stD2 1 connB ⟨"d1", "p1"⟩ "d1" (by decide) rfl rfl rfl rfl).1,
   (C10_rejoin_renotifies dbW stD2 1 connB ⟨"d1", "p1"⟩ "d1" (by decide) rfl rfl rfl rfl).2.1,
   (C10_rejoin_renotifies dbW stD2 1 connB ⟨"d1", "p1"⟩ "d1" (by decide) rfl rfl rfl rfl).2.2 0
     (by decide) (by decide)⟩

/-- C3 counterexample: immediately after a successful connect, the connection
is a member of its own `user:<id>` room although the trace contains no join
event at all — so membership is not equivalent to having issued a join event
whose authorization check succeeded, once `user:<id>` rooms are included. -/
theorem C3_counterexample :
    (run dbW .init [.connect 0 (.valid "u1" "e1")]).isMember (.user "u1") 0 = true ∧
    ([InEvent.connect 0 (.valid "u1" "e1")].all fun e => !(isJoinEvent e)) = true :=
  ⟨rfl, rfl⟩

/-- C3 amended: for every room and live connection, membership holds iff the
trace contains an event that joined the connection into the room — an
authorized `join-conversation` or `join-document` issued by the connection
for conversation/document rooms, or the automatic `user:<id>` auto-join at
its successful connect — with no disconnect of the connection afterwards. -/
theorem C3_membership_characterization (db : DB) (tr : List InEvent) (r : RoomKey)
    (s : SocketId) :
    (run db .init tr).isMember r s = true ↔
      ∃ i e, tr[i]? = some e ∧
        addsNow db (run db .init (tr.take i)) e r s = true ∧
        ∀ j e', i < j → tr[j]? = some e' → e' ≠ .disconnect s := by
  induction tr using List.reverseRecOn with
  | nil => simp [run, ServerState.init, ServerState.isMember, List.contains]
  | append_singleton t e ih =>
    rw [run_append]
    constructor
    · intro h
      simp only [run] at h
      rcases step_member_inv db (run db .init t) e r s h with hadd | ⟨hmem, hrem⟩
      · refine ⟨t.length, e, List.getElem?_concat_length t e, ?_, ?_⟩
        · rw [List.take_append_of_le_length (le_refl _), List.take_length]
          exact hadd
        · intro j e' hj hj'
          have hlen : (t ++ [e]).length ≤ j := by
            simp only [List.length_append, List.length_cons, List.length_nil]
            omega
          rw [List.getElem?_eq_none hlen] at hj'
          cases hj'
      · obtain ⟨i, e', hi, hadd, hnod⟩ := ih.mp hmem
        have hilen : i < t.length := by
          by_contra hge
          rw [List.getElem?_eq_none (Nat.le_of_not_lt hge)] at hi
          cases hi
        refine ⟨i, e', ?_, ?_, ?_⟩
        · rw [List.getElem?_append_left hilen]
          exact hi
        · rw [List.take_append_of_le_length (Nat.le_of_lt hilen)]
          exact hadd
        · intro j e'' hj hj'
          rcases Nat.lt_or_ge j t.length with hjl | hjr
          · exact hnod j e'' hj (by rw [List.getElem?_append_left hjl] at hj'; exact hj')
          · have hjlen : j < t.length + 1 := by
              by_contra hge
              have hlen : (t ++ [e]).length ≤ j := by
                simp only [List.length_append, List.length_cons, List.length_nil]
                omega
              rw [List.getElem?_eq_none hlen] at hj'
              cases hj'
            have hje : j = t.length := by omega
            subst hje
            rw [List.getElem?_concat_length] at hj'
            injection hj' with hj'
            subst hj'
            intro heq
            subst heq
            have hcon : (run db .init t).connected s = true :=
              member_connected (WF_run db _ t WF_init) hmem
            simp [removesNow, hcon] at hrem
    · rintro ⟨i, e', hi, hadd, hnod⟩
      simp only [run]
      rcases Nat.lt_or_ge i t.length with hilen | hige
      · have hmem : (run db .init t).isMember r s = true := by
          apply ih.mpr
          refine ⟨i, e', ?_, ?_, ?_⟩
          · rw [List.getElem?_append_left hilen] at hi
            exact hi
          · rw [List.take_append_of_le_length (Nat.le_of_lt hilen)] at hadd
            exact hadd
          · intro j e'' hj hj'
            apply hnod j e'' hj
            have hjl : j < t.length := by
              by_contra hge
              rw [List.getElem?_eq_none (Nat.le_of_not_lt hge)] at hj'
              cases hj'
            rw [List.getElem?_append_left hjl]
            exact hj'
        have hne : e ≠ .disconnect s :=
          hnod t.length e hilen (List.getElem?_concat_length t e)
        exact step_preserves_member db _ e r s hne hmem
      · have hilt : i < t.length + 1 := by
          by_contra hge
          have hlen : (t ++ [e]).length ≤ i := by
            simp only [List.length_append, List.length_cons, List.length_nil]
            omega
          rw [List.getElem?_eq_none hlen] at hi
          cases hi
        have hie : i = t.length := by omega
        subst hie
        rw [List.getElem?_concat_length] at hi
        injection hi with hi
        subst hi
        rw [List.take_append_of_le_length (le_refl _), List.take_length] at hadd
        exact step_adds db _ e r s hadd

/-- C3 amended-claim witness at a concrete input: after connect and an
authorized `join-conversation`, socket 0 is a member of `conversation:c1`. -/
theorem C3_membership_characterization_witness :
    (run dbW .init [.connect 0 (.valid "uA" "a@x"),
        .joinConversation 0 "c1" false]).isMember (.conversation "c1") 0 = true :=
  (C3_membership_characterization dbW
      [.connect 0 (.valid "uA" "a@x"), .joinConversation 0 "c1" false]
      (.conversation "c1") 0).mpr
    ⟨1, .joinConversation 0 "c1" false, rfl, by decide, fun j e' hj hj' => by
      rw [List.getElem?_eq_none (by simpa using hj)] at hj'
      cases hj'⟩

/-! ### Never-connected sockets stay out of all rooms -/

theorem connected_false_iff {st : ServerState} {s : SocketId} :
    st.connected s = false ↔ ∀ c ∈ st.conns, c.sid ≠ s := by
  constructor
  · intro h c hcmem hcs
    have ht : st.connected s = true := connected_iff.mpr ⟨c, hcmem, hcs⟩
    rw [h] at ht
    cases ht
  · intro h
    cases hc : st.connected s with
    | false => rfl
    | true =>
      obtain ⟨c, hcmem, hcs⟩ := connected_iff.mp hc
      exact absurd hcs (h c hcmem)

theorem connected_joinRoom (st : ServerState) (j s : SocketId) (q : RoomKey) :
    (st.joinRoom j q).connected s = st.connected s := by
  unfold ServerState.connected
  rw [joinRoom_connOf]

theorem isMember_false_joinRoom {st : ServerState} {r q : RoomKey} {s j : SocketId}
    (hm : st.isMember r s = false) (hne : j ≠ s) :
    (st.joinRoom j q).isMember r s = false := by
  cases h : (st.joinRoom j q).isMember r s with
  | false => rfl
  | true =>
    rcases isMember_joinRoom_inv h with h1 | ⟨-, h1⟩
    · rw [hm] at h1
      cases h1
    · exact absurd h1 hne

theorem step_keeps_unconnected (db : DB) (st : ServerState) (e : InEvent) (s : SocketId)
    (hbadE : ∀ tok, e = .connect s tok → tok.bad = true)
    (hc : st.connected s = false) (hm : ∀ r, st.isMember r s = false) :
    ((step db st e).1).connected s = false ∧
      ∀ r, ((step db st e).1).isMember r s = false := by
  cases e with
  | connect sid tok =>
    cases tok with
    | valid i em =>
      have hsne : sid ≠ s := by
        rintro rfl
        exact absurd (hbadE (.valid i em) rfl) (by simp [TokenCheck.bad])
      cases hcon : st.connected sid with
      | true =>
        exact ⟨by simpa [step, hcon] using hc, fun r => by simpa [step, hcon] using hm r⟩
      | false =>
        simp only [step, hcon, Bool.false_eq_true, if_false]
        constructor
        · rw [connected_joinRoom]
          apply connected_false_iff.mpr
          intro c hcmem
          rcases List.mem_append.mp hcmem with h | h
          · exact connected_false_iff.mp hc c h
          · rw [List.mem_singleton] at h
            subst h
            exact hsne
        · intro r
          exact isMember_false_joinRoom (hm r) hsne
    | missing =>
      exact ⟨by simpa [step] using hc, fun r => by simpa [step] using hm r⟩
    | invalid =>
      exact ⟨by simpa [step] using hc, fun r => by simpa [step] using hm r⟩
  | joinConversation sid cid f =>
    cases hco : st.connOf sid with
    | none =>
      exact ⟨by simpa [step, hco] using hc, fun r => by simpa [step, hco] using hm r⟩
    | some c =>
      have hsne : sid ≠ s := by
        rintro rfl
        simp [ServerState.connected, hco] at hc
      cases f with
      | true =>
        exact ⟨by simpa [step, hco] using hc, fun r => by simpa [step, hco] using hm r⟩
      | false =>
        cases hp : db.findParticipant cid c.user.id with
        | false =>
          exact ⟨by simpa [step, hco, hp] using hc,
                 fun r => by simpa [step, hco, hp] using hm r⟩
        | true =>
          simp only [step, hco, hp]
          refine ⟨?_, fun r => ?_⟩
          · simpa [connected_joinRoom] using hc
          · simpa using isMember_false_joinRoom (hm r) hsne
  | joinDocument sid did f =>
    cases hco : st.connOf sid with
    | none =>
      exact ⟨by simpa [step, hco] using hc, fun r => by simpa [step, hco] using hm r⟩
    | some c =>
      have hsne : sid ≠ s := by
        rintro rfl
        simp [ServerState.connected, hco] at hc
      cases f with
      | true =>
        exact ⟨by simpa [step, hco] using hc, fun r => by simpa [step, hco] using hm r⟩
      | false =>
        cases hd : db.findDocument did with
        | none =>
          exact ⟨by simpa [step, hco, hd] using hc,
                 fun r => by simpa [step, hco, hd] using hm r⟩
        | some doc =>
          cases hpm : db.findProjectMember doc.projectId c.user.id with
          | false =>
            exact ⟨by simpa [step, hco, hd, hpm] using hc,
                   fun r => by simpa [step, hco, hd, hpm] using hm r⟩
          | true =>
            simp only [step, hco, hd, hpm]
            refine ⟨?_, fun r => ?_⟩
            · simpa [connected_joinRoom] using hc
            · simpa using isMember_false_joinRoom (hm r) hsne
  | documentChange sid did content pos =>
    cases hco : st.connOf sid <;>
      exact ⟨by simpa [step, hco] using hc, fun r => by simpa [step, hco] using hm r⟩
  | newMessage sid cid mid content created =>
    cases hco : st.connOf sid <;>
      exact ⟨by simpa [step, hco] using hc, fun r => by simpa [step, hco] using hm r⟩
  | typing sid cid ty =>
    cases hco : st.connOf sid <;>
      exact ⟨by simpa [step, hco] using hc, fun r => by simpa [step, hco] using hm r⟩
  | setPresence sid status =>
    cases hco : st.connOf sid <;>
      exact ⟨by simpa [step, hco] using hc, fun r => by simpa [step, hco] using hm r⟩
  | disconnect sid =>
    cases hco : st.connOf sid with
    | none =>
      exact ⟨by simpa [step, hco] using hc, fun r => by simpa [step, hco] using hm r⟩
    | some c =>
      simp only [step, hco]
      refine ⟨?_, fun r => ?_⟩
      · apply connected_false_iff.mpr
        intro k hk
        exact connected_false_iff.mp hc k (List.mem_filter.mp hk).1
      · cases h : (ServerState.mk (st.conns.filter fun k => k.sid != sid)
            (st.rooms.filter fun p => p.2 != sid)).isMember r s with
        | false => rfl
        | true =>
          rw [isMember_iff] at h
          have h1 := (List.mem_filter.mp h).1
          have h2 : st.isMember r s = true := isMember_iff.mpr h1
          rw [hm r] at h2
          cases h2

theorem run_keeps_unconnected (db : DB) (t : List InEvent) (s : SocketId) :
    ∀ st : ServerState, (∀ tok, InEvent.connect s tok ∈ t → tok.bad = true) →
      st.connected s = false → (∀ r, st.isMember r s = false) →
      (run db st t).connected s = false ∧ ∀ r, (run db st t).isMember r s = false := by
  induction t with
  | nil => exact fun st _ hc hm => ⟨hc, hm⟩
  | cons e rest ih =>
    intro st hbad hc hm
    have hstep := step_keeps_unconnected db st e s
      (fun tok htok => hbad tok (htok ▸ List.mem_cons_self _ _)) hc hm
    exact ih _ (fun tok htok => hbad tok (List.mem_cons_of_mem _ htok)) hstep.1 hstep.2

/-- C2: a connection attempt whose handshake token is missing or fails
verification (invalid signature or expired) is refused with an
`Authentication error` and leaves the state untouched, so no event handler
ever runs for it; and a socket all of whose connection attempts in a trace
carry bad tokens is never connected and never a member of any room. -/
theorem C2_bad_token_rejected (db : DB) (tr : List InEvent) (sid : SocketId)
    (hbad : ∀ tok, InEvent.connect sid tok ∈ tr → tok.bad = true) :
    (∀ st tok, tok.bad = true →
       step db st (.connect sid tok) = (st, [(sid, .connError "Authentication error")])) ∧
    (run db .init tr).connected sid = false ∧
    ∀ r, (run db .init tr).isMember r sid = false := by
  refine ⟨?_, ?_⟩
  · intro st tok htok
    cases tok with
    | missing => simp [step]
    | invalid => simp [step]
    | valid i em => simp [TokenCheck.bad] at htok
  · exact run_keeps_unconnected db tr sid .init hbad rfl (fun r => rfl)

/-- C2 witness at a concrete input: socket 5 presents a missing and then an
invalid token and also attempts a join; it is refused each time and ends up
connected to nothing and a member of nothing. -/
theorem C2_bad_token_rejected_witness :
    step dbW stW (.connect 5 .missing)
      = (stW, [(5, .connError "Authentication error")]) ∧
    (run dbW .init [.connect 5 .missing, .connect 5 .invalid,
        .joinConversation 5 "c1" false]).connected 5 = false ∧
    (run dbW .init [.connect 5 .missing, .connect 5 .invalid,
        .joinConversation 5 "c1" false]).isMember (.conversation "c1") 5 = false := by
  have h := C2_bad_token_rejected dbW
      [.connect 5 .missing, .connect 5 .invalid, .joinConversation 5 "c1" false] 5 ?hb
  case hb =>
    intro tok htok
    simp at htok
    rcases htok with rfl | rfl <;> rfl
  exact ⟨h.1 stW .missing rfl, h.2.1, h.2.2 (.conversation "c1")⟩

/-! ### Broadcast ordering -/

theorem mem_emitAll {st : ServerState} {x : SocketId} (p : Payload)
    (hx : st.connected x = true) : (x, p) ∈ emitAll st p := by
  obtain ⟨c, hcmem, hcs⟩ := connected_iff.mp hx
  exact List.mem_map.mpr ⟨c, hcmem, by rw [hcs]⟩

theorem connected_filter_ne {st : ServerState} {x a : SocketId}
    (h : st.connected x = true) (hne : x ≠ a) :
    (ServerState.mk (st.conns.filter fun k => k.sid != a)
      (st.rooms.filter fun p => p.2 != a)).connected x = true := by
  obtain ⟨c, hcmem, hcs⟩ := connected_iff.mp h
  refine connected_iff.mpr ⟨c, List.mem_filter.mpr ⟨hcmem, ?_⟩, hcs⟩
  rw [hcs]
  simpa using hne

theorem pair_sublist {α : Type} {p q : α} {A B : List α} (hp : p ∈ A) (hq : q ∈ B) :
    [p, q].Sublist (A ++ B) := by
  obtain ⟨a1, a2, rfl⟩ := List.append_of_mem hp
  have h3 : [q].Sublist (a2 ++ B) :=
    (List.singleton_sublist.mpr hq).trans (List.sublist_append_right a2 B)
  have h4 : (p :: (a2 ++ B)).Sublist ((a1 ++ p :: a2) ++ B) := by
    simp only [List.append_assoc, List.cons_append]
    exact List.sublist_append_right a1 _
  exact (List.Sublist.cons₂ p h3).trans h4

/-- C9: per-connection broadcast ordering — if connection `a` emits
`set-presence("typing")` and later disconnects, then any other client `x`
connected at both points receives the `typing` presence broadcast before the
`offline` one in the overall delivery sequence. -/
theorem C9_typing_before_offline (db : DB) (t1 t2 t3 : List InEvent) (a x : SocketId)
    (c : Conn) (hxa : x ≠ a)
    (hA : (run db .init t1).connOf a = some c)
    (hxA : (run db .init t1).connected x = true)
    (hB : (run db .init (t1 ++ .setPresence a "typing" :: t2)).connOf a = some c)
    (hxB : (run db .init (t1 ++ .setPresence a "typing" :: t2)).connected x = true) :
    [(x, Payload.userPresenceChange c.user.id "typing"),
     (x, Payload.userPresenceChange c.user.id "offline")].Sublist
      (runOut db .init (t1 ++ .setPresence a "typing" :: (t2 ++ .disconnect a :: t3))) := by
  have hspOut : (step db (run db .init t1) (.setPresence a "typing")).2
      = emitAll (run db .init t1) (.userPresenceChange c.user.id "typing") := by
    simp [step, hA]
  have hspSt : (step db (run db .init t1) (.setPresence a "typing")).1
      = run db .init t1 := by
    simp [step, hA]
  have hstB2 : run db .init (t1 ++ .setPresence a "typing" :: t2)
      = run db (run db .init t1) t2 := by
    rw [run_append]
    simp only [run]
    rw [hspSt]
  have hdcOut : (step db (run db .init (t1 ++ .setPresence a "typing" :: t2))
        (.disconnect a)).2
      = emitAll (ServerState.mk
          ((run db .init (t1 ++ .setPresence a "typing" :: t2)).conns.filter
            fun k => k.sid != a)
          ((run db .init (t1 ++ .setPresence a "typing" :: t2)).rooms.filter
            fun p => p.2 != a))
          (.userPresenceChange c.user.id "offline") := by
    simp [step, hB]
  have e1 : runOut db .init (t1 ++ .setPresence a "typing" :: (t2 ++ .disconnect a :: t3))
      = runOut db .init t1
        ++ ((step db (run db .init t1) (.setPresence a "typing")).2
        ++ (runOut db (run db .init t1) t2
        ++ ((step db (run db .init (t1 ++ .setPresence a "typing" :: t2))
              (.disconnect a)).2
        ++ runOut db (step db (run db .init (t1 ++ .setPresence a "typing" :: t2))
              (.disconnect a)).1 t3))) := by
    rw [runOut_append]
    congr 1
    simp only [runOut]
    rw [hspSt]
    congr 1
    rw [runOut_append]
    congr 1
    rw [← hstB2]
    simp only [runOut]
  have hp : (x, Payload.userPresenceChange c.user.id "typing")
      ∈ runOut db .init t1
        ++ (step db (run db .init t1) (.setPresence a "typing")).2 := by
    apply List.mem_append_right
    rw [hspOut]
    exact mem_emitAll _ hxA
  have hq : (x, Payload.userPresenceChange c.user.id "offline")
      ∈ runOut db (run db .init t1) t2
        ++ ((step db (run db .init (t1 ++ .setPresence a "typing" :: t2))
              (.disconnect a)).2
        ++ runOut db (step db (run db .init (t1 ++ .setPresence a "typing" :: t2))
              (.disconnect a)).1 t3) := by
    apply List.mem_append_right
    apply List.mem_append_left
    rw [hdcOut]
    exact mem_emitAll _ (connected_filter_ne hxB hxa)
  have hsub := pair_sublist hp hq
  rw [e1]
  simpa [List.append_assoc] using hsub

/-- C9 witness at a concrete input: socket 0 (`uA`) sets presence to
`typing` and disconnects; socket 1 observes the typing broadcast before the
offline broadcast. -/
theorem C9_typing_before_offline_witness :
    [((1 : SocketId), Payload.userPresenceChange "uA" "typing"),
     (1, Payload.userPresenceChange "uA" "offline")].Sublist
      (runOut dbW .init ([.connect 0 (.valid "uA" "a@x"), .connect 1 (.valid "uB" "b@x")]
        ++ .setPresence 0 "typing" :: ([] ++ .disconnect 0 :: []))) :=
  C9_typing_before_offline dbW
    [.connect 0 (.valid "uA" "a@x"), .connect 1 (.valid "uB" "b@x")] [] [] 0 1 connA
    (by decide) rfl rfl rfl rfl

end ResearchBridge
